import Mathlib

/-!
Verification of the kripto-haber backend (Express news-feed service).

The embedding models the two source files:
* `src/routes/telegram.js` — message normalization (`processMessage`), the
  bounded in-memory news store (`storedNews`), the SQLite mirror write
  (`INSERT OR REPLACE`), the poll loop (`/telegram-poll`), the admin-token
  middleware (`verifyAdminToken`), news update/delete routes, and the push
  token registry (`/register-push-token`).
* `src/server.js` — the active-admin-token session set consulted by
  `verifyAdmin` (used only for `/admin/logout`, not for news mutations).

Strings are modelled with Lean `String` / `List Char`; JavaScript string
truthiness (`!s`, `s || d`) is the emptiness test.  `Date.now()` is passed
in explicitly as a `Nat` clock reading.  `new Date(...).toISOString()` is
modelled as the underlying instant in milliseconds (the ISO rendering is
display-only and no claim inspects it).
-/

namespace KriptoHaber

/-- Raw provider message (the Telegram `message` object): `message_id`,
optional `text`, and `date` in seconds since epoch. -/
structure TgMessage where
  message_id : Nat
  text : Option String
  date : Nat
  deriving DecidableEq, Repr

/-- Raw provider update (one element of the `getUpdates` result). -/
structure TgUpdate where
  update_id : Nat
  message : Option TgMessage
  deriving DecidableEq, Repr

/-- Canonical news item built by `processMessage` in `src/routes/telegram.js`.
`timestamp` is the instant `message.date * 1000` in milliseconds. -/
structure NewsItem where
  id : String
  title : String
  body : String
  timestamp : Nat
  source : String
  emoji : String
  raw_message : TgMessage
  deriving DecidableEq, Repr

/-! ## Message normalization (`processMessage`, lines 135-147 / 463-475)

The text pipeline of `processMessage` is
`message.text.trim().split('\n')`; the first line (JS `||`-defaulted) is the
title and the remaining lines joined by newline (falling back to the whole
trimmed text) are the body.  We work on `List Char` to mirror the JS string
primitives exactly. -/

/-- Whitespace characters stripped by `String.prototype.trim` (ASCII subset;
the source texts involved never use the exotic Unicode space characters). -/
def isWs (c : Char) : Bool :=
  c == ' ' || c == '\t' || c == '\n' || c == '\r'

/-- JS `text.trim()`: drop whitespace from both ends. -/
def jsTrim (cs : List Char) : List Char :=
  ((cs.dropWhile isWs).reverse.dropWhile isWs).reverse

/-- JS `text.split('\n')`: split at every newline, keeping empty segments;
the result always has at least one element. -/
def splitNl : List Char → List (List Char)
  | [] => [[]]
  | c :: rest =>
    if c = '\n' then [] :: splitNl rest
    else
      match splitNl rest with
      | [] => [[]]
      | l :: ls => (c :: l) :: ls

/-- JS `lines.join('\n')`. -/
def joinNl : List (List Char) → List Char
  | [] => []
  | [l] => l
  | l :: l2 :: ls => l ++ '\n' :: joinNl (l2 :: ls)

/-- JS `a || b` on strings: `b` when `a` is empty (falsy), else `a`. -/
def jsOrChars (a b : List Char) : List Char :=
  if a = [] then b else a

/-- JS `a || b` where `a` may also be absent (`undefined`). -/
def jsOr (a : Option String) (b : String) : String :=
  match a with
  | none => b
  | some s => if s = "" then b else s

/-- The localized default title `'Yeni Haber'` used when the first line is
empty. -/
def defaultTitleChars : List Char := "Yeni Haber".data

/-- `lines[0] || 'Yeni Haber'` applied to the trimmed text. -/
def normTitleChars (text : List Char) : List Char :=
  jsOrChars (splitNl (jsTrim text)).headI defaultTitleChars

/-- `lines.slice(1).join('\n') || messageText` applied to the trimmed text. -/
def normBodyChars (text : List Char) : List Char :=
  jsOrChars (joinNl (splitNl (jsTrim text)).tail) (jsTrim text)

/-- The `telegramMessage` object built by `processMessage`.  `now` is the
`Date.now()` reading used in the synthesized id.  (`message.text` is only
read on paths where it is present and truthy; `getD ""` is the benign
default for the unreachable case.) -/
def normalizeMessage (m : TgMessage) (now : Nat) : NewsItem :=
  let text := (m.text.getD "").data
  { id := "telegram_" ++ toString m.message_id ++ "_" ++ toString now
    title := String.mk (normTitleChars text)
    body := String.mk (normBodyChars text)
    timestamp := m.date * 1000
    source := "Telegram Bot"
    emoji := "📱"
    raw_message := m }

/-! ## The bounded in-memory store (lines 149-154 / 496-501) -/

/-- `storedNews.unshift(item)` followed by
`if (storedNews.length > 50) storedNews = storedNews.slice(0, 50)`. -/
def storeAdd (item : NewsItem) (store : List NewsItem) : List NewsItem :=
  let s := item :: store
  if s.length > 50 then s.take 50 else s

/-- The store effect of one `processMessage(message)` call. -/
def processMessage (store : List NewsItem) (m : TgMessage) (now : Nat) :
    List NewsItem :=
  storeAdd (normalizeMessage m now) store

/-- Response of `GET /api/news`. -/
structure ListResponse where
  ok : Bool
  count : Nat
  news : List NewsItem
  deriving DecidableEq, Repr

/-- `GET /api/news` returns `{ok, count: storedNews.length, news: storedNews}`. -/
def listNews (store : List NewsItem) : ListResponse :=
  { ok := true, count := store.length, news := store }

/-- The durable write of the SQLite variant (lines 477-494):
`INSERT OR REPLACE INTO news ... (id TEXT PRIMARY KEY, ...)`.  The table is
keyed by `id`; a colliding write replaces the row, otherwise a new row is
inserted. -/
def dbUpsert (item : NewsItem) (db : List NewsItem) : List NewsItem :=
  if db.any (fun r => r.id == item.id) then
    db.map (fun r => if r.id = item.id then item else r)
  else
    db ++ [item]

/-! ## HTTP statuses and the admin gate -/

/-- The response statuses the routes distinguish. -/
inductive Status where
  | ok
  | unauthorized
  | notFound
  | badRequest
  deriving DecidableEq, Repr

/-- The `verifyAdminToken` middleware of `src/routes/telegram.js`
(lines 9-25): rejects only when `req.headers['x-admin-token']` is absent or
empty (JS falsy); it never consults the active-session set. -/
def verifyAdminToken (token : Option String) : Bool :=
  match token with
  | none => false
  | some t => t != ""

/-- The `verifyAdmin` middleware of `src/server.js` (lines 44-51): requires
the token to be present and a member of `activeAdminTokens`.  (It guards
only `POST /admin/logout`, not the news mutation routes.) -/
def verifyAdmin (activeAdminTokens : List String) (token : Option String) :
    Bool :=
  match token with
  | none => false
  | some t => t ∈ activeAdminTokens

/-! ## News mutation routes (lines 262-340) -/

/-- The field merge of `PUT /api/news/:id`:
`{...old, title: title || old.title, body: body || old.body,
emoji: emoji || old.emoji}`.  An absent field and an empty field are both
falsy, so both keep the stored value. -/
def applyUpdate (t b e : Option String) (old : NewsItem) : NewsItem :=
  { old with
      title := jsOr t old.title
      body := jsOr b old.body
      emoji := jsOr e old.emoji }

/-- The body of `PUT /api/news/:id`:
`storedNews.findIndex(item => item.id === id)` followed by in-place
assignment at that index, or a 404 leaving the store untouched.  The
recursion replaces the first item whose id matches, keeping all others. -/
def newsUpdate (store : List NewsItem) (nid : String) (t b e : Option String) :
    Status × Option NewsItem × List NewsItem :=
  match store with
  | [] => (Status.notFound, none, [])
  | x :: rest =>
    if x.id = nid then
      (Status.ok, some (applyUpdate t b e x), applyUpdate t b e x :: rest)
    else
      let r := newsUpdate rest nid t b e
      (r.1, r.2.1, x :: r.2.2)

/-- The body of `DELETE /api/news/:id`:
`storedNews = storedNews.filter(item => item.id !== id)`, answering 200 when
the length shrank and 404 otherwise. -/
def newsDelete (store : List NewsItem) (nid : String) :
    Status × List NewsItem :=
  let filtered := store.filter (fun item => item.id != nid)
  if filtered.length < store.length then (Status.ok, filtered)
  else (Status.notFound, filtered)

/-- `PUT /api/news/:id` behind the `verifyAdminToken` middleware.  The
active-session set is passed in to reflect what the route could consult,
but — as in the source — it is never read. -/
def adminUpdate (activeAdminTokens : List String) (token : Option String)
    (store : List NewsItem) (nid : String) (t b e : Option String) :
    Status × Option NewsItem × List NewsItem :=
  if verifyAdminToken token then newsUpdate store nid t b e
  else (Status.unauthorized, none, store)

/-- `DELETE /api/news/:id` behind the `verifyAdminToken` middleware. -/
def adminDelete (activeAdminTokens : List String) (token : Option String)
    (store : List NewsItem) (nid : String) : Status × List NewsItem :=
  if verifyAdminToken token then newsDelete store nid
  else (Status.unauthorized, store)

/-! ## Push-token registry (`POST /api/register-push-token`, lines 172-204) -/

/-- `if (!pushToken) 400; if (!pushTokens.includes(pushToken))
pushTokens.push(pushToken); respond {ok, totalDevices: pushTokens.length}`.
Returns (status, registry after the call, reported `totalDevices`). -/
def registerPushToken (pushTokens : List String) (token : Option String) :
    Status × List String × Nat :=
  match token with
  | none => (Status.badRequest, pushTokens, pushTokens.length)
  | some t =>
    if t = "" then (Status.badRequest, pushTokens, pushTokens.length)
    else
      let updated := if t ∈ pushTokens then pushTokens else pushTokens ++ [t]
      (Status.ok, updated, updated.length)

/-! ## Poll loop (`GET /api/telegram-poll`, lines 64-76 / 434-446) -/

/-- The guard `update.message && update.message.text`: the message handed to
`processMessage` when the update carries a truthy (present, non-empty)
text, `none` otherwise. -/
def textMessage (u : TgUpdate) : Option TgMessage :=
  match u.message with
  | none => none
  | some m =>
    match m.text with
    | none => none
    | some t => if t = "" then none else some m

/-- One iteration of the `data.result.forEach(update => ...)` loop.  The
state is `(lastUpdateId, log)`, where the log records the messages handed to
`processMessage`, in call order (instrumentation for stating which updates
get processed; the store effect of each call is `processMessage` above). -/
def pollStep (st : Nat × List TgMessage) (u : TgUpdate) :
    Nat × List TgMessage :=
  match textMessage u with
  | some m => (u.update_id, st.2 ++ [m])
  | none => st

/-- The whole loop over one `getUpdates` batch, starting from cursor
`lastUpdateId` with an empty processing log. -/
def pollBatch (batch : List TgUpdate) (lastUpdateId : Nat) :
    Nat × List TgMessage :=
  batch.foldl pollStep (lastUpdateId, [])

/-! ## Sample data used in witnesses and counterexamples -/

/-- A provider message with a three-line text. -/
def rawA : TgMessage := ⟨1, some "Title\nLine2\nLine3", 1700000000⟩

/-- A redelivery of message 1 with different text, normalized at the same
millisecond, hence with the same synthesized id as `itemA`. -/
def rawB : TgMessage := ⟨1, some "Other", 1700000001⟩

/-- `rawA` normalized at clock reading 1. -/
def itemA : NewsItem := normalizeMessage rawA 1

/-- `rawB` normalized at clock reading 1; `itemB.id = itemA.id`. -/
def itemB : NewsItem := normalizeMessage rawB 1

/-! ## Store-write lemmas -/

/-- One store write never leaves more than 50 items. -/
theorem storeAdd_length_le (item : NewsItem) (store : List NewsItem) :
    (storeAdd item store).length ≤ 50 := by
  by_cases h : (item :: store).length > 50
  · simp only [storeAdd, if_pos h, List.length_take]
    exact Nat.min_le_left 50 (item :: store).length
  · simp only [storeAdd, if_neg h]
    omega

/-- One store write puts the new item in front. -/
theorem storeAdd_head (item : NewsItem) (store : List NewsItem) :
    (storeAdd item store).head? = some item := by
  by_cases h : (item :: store).length > 50
  · simp only [storeAdd, if_pos h, List.take_succ_cons, List.head?_cons]
  · simp only [storeAdd, if_neg h, List.head?_cons]

/-- Below the bound, the store write is exactly a prepend. -/
theorem storeAdd_eq_cons (item : NewsItem) (store : List NewsItem)
    (h : store.length < 50) : storeAdd item store = item :: store := by
  have h2 : ¬ ((item :: store).length > 50) := by
    simp only [List.length_cons]
    omega
  simp only [storeAdd, if_neg h2]

/-- C1: for every sequence of ingested messages, after each call to
`processMessage` the stored news collection holds at most 50 items, and the
item produced by the most recent ingestion is the first element returned by
the news listing. -/
theorem processMessage_bound_and_newest_first (init : List NewsItem)
    (ms : List (TgMessage × Nat)) (m : TgMessage) (now : Nat) :
    (((ms ++ [(m, now)]).foldl (fun st p => processMessage st p.1 p.2)
        init).length ≤ 50) ∧
    ((listNews ((ms ++ [(m, now)]).foldl (fun st p => processMessage st p.1 p.2)
        init)).news.head? = some (normalizeMessage m now)) := by
  rw [List.foldl_append, List.foldl_cons, List.foldl_nil]
  exact ⟨storeAdd_length_le _ _, storeAdd_head _ _⟩

/-- C2 counterexample: writing `itemB`, whose id collides with the stored
`itemA`, does not replace in place: the store grows from 1 to 2 items and
afterwards two records carry the colliding id. -/
theorem upsert_in_place_counterexample :
    itemB.id = itemA.id ∧
    storeAdd itemB [itemA] = [itemB, itemA] ∧
    (storeAdd itemB [itemA]).length ≠ ([itemA] : List NewsItem).length ∧
    ((storeAdd itemB [itemA]).map NewsItem.id).count itemA.id = 2 := by
  decide

/-- C2 amended: a write whose id already occurs replaces the row in the
durable table (size unchanged, every row with that id is the new row), but
the in-memory news collection prepends the item unconditionally: when the
store held fewer than 50 items its size grows by one and at least two
records with the colliding id remain. -/
theorem upsert_collision_amended (db store : List NewsItem) (item : NewsItem)
    (hdb : item.id ∈ db.map NewsItem.id)
    (hst : item.id ∈ store.map NewsItem.id)
    (hlen : store.length < 50) :
    (dbUpsert item db).length = db.length ∧
    item ∈ dbUpsert item db ∧
    (∀ r ∈ dbUpsert item db, r.id = item.id → r = item) ∧
    storeAdd item store = item :: store ∧
    2 ≤ ((storeAdd item store).map NewsItem.id).count item.id := by
  obtain ⟨r, hr, hrid⟩ := List.mem_map.mp hdb
  have hany : db.any (fun r => r.id == item.id) = true :=
    List.any_eq_true.mpr ⟨r, hr, by simp [hrid]⟩
  have hdbu : dbUpsert item db = db.map (fun r => if r.id = item.id then item else r) := by
    unfold dbUpsert
    rw [if_pos hany]
  refine ⟨?_, ?_, ?_, storeAdd_eq_cons item store hlen, ?_⟩
  · rw [hdbu, List.length_map]
  · rw [hdbu]
    exact List.mem_map.mpr ⟨r, hr, by rw [if_pos hrid]⟩
  · intro x hx hxid
    rw [hdbu] at hx
    obtain ⟨a, _, ha⟩ := List.mem_map.mp hx
    by_cases hcase : a.id = item.id
    · rw [if_pos hcase] at ha
      exact ha.symm
    · rw [if_neg hcase] at ha
      exact absurd (ha ▸ hxid) hcase
  · rw [storeAdd_eq_cons item store hlen, List.map_cons, List.count_cons_self]
    have : 0 < (store.map NewsItem.id).count item.id :=
      List.count_pos_iff.mpr hst
    omega

/-! ## Mutation-route lemmas -/

/-- The update route never answers Unauthorized itself. -/
theorem newsUpdate_fst_ne_unauthorized (store : List NewsItem) (nid : String)
    (t b e : Option String) :
    (newsUpdate store nid t b e).1 ≠ Status.unauthorized := by
  induction store with
  | nil => simp [newsUpdate]
  | cons x rest ih =>
    by_cases hx : x.id = nid
    · simp [newsUpdate, if_pos hx]
    · simpa [newsUpdate, if_neg hx] using ih

/-- The delete route never answers Unauthorized itself. -/
theorem newsDelete_fst_ne_unauthorized (store : List NewsItem) (nid : String) :
    (newsDelete store nid).1 ≠ Status.unauthorized := by
  by_cases h : (store.filter (fun item => item.id != nid)).length < store.length
  · simp [newsDelete, if_pos h]
  · simp [newsDelete, if_neg h]

/-- Updating an absent id answers NotFound and returns the store unchanged. -/
theorem newsUpdate_absent (store : List NewsItem) (nid : String)
    (t b e : Option String) (h : ∀ x ∈ store, x.id ≠ nid) :
    newsUpdate store nid t b e = (Status.notFound, none, store) := by
  induction store with
  | nil => rfl
  | cons x rest ih =>
    have hx : x.id ≠ nid := h x (List.mem_cons_self x rest)
    have hrest := ih (fun y hy => h y (List.mem_cons_of_mem x hy))
    simp [newsUpdate, if_neg hx, hrest]

/-- Characterization of a successful update: the store splits around the
first item carrying the id, only that item is rewritten by the field merge,
and everything else is returned unchanged. -/
theorem newsUpdate_found (store : List NewsItem) (nid : String)
    (t b e : Option String) (h : nid ∈ store.map NewsItem.id) :
    ∃ pre old post,
      store = pre ++ old :: post ∧ old.id = nid ∧ (∀ x ∈ pre, x.id ≠ nid) ∧
      newsUpdate store nid t b e =
        (Status.ok, some (applyUpdate t b e old),
          pre ++ applyUpdate t b e old :: post) := by
  induction store with
  | nil => simp at h
  | cons x rest ih =>
    by_cases hx : x.id = nid
    · exact ⟨[], x, rest, by simp, hx, by simp, by simp [newsUpdate, if_pos hx]⟩
    · have hrest : nid ∈ rest.map NewsItem.id := by
        simp only [List.map_cons, List.mem_cons] at h
        rcases h with h | h
        · exact absurd h.symm hx
        · exact h
      obtain ⟨pre, old, post, hsplit, hold, hpre, heq⟩ := ih hrest
      refine ⟨x :: pre, old, post, by simp [hsplit], hold, ?_, ?_⟩
      · intro y hy
        rcases List.mem_cons.mp hy with rfl | hy
        · exact hx
        · exact hpre y hy
      · simp [newsUpdate, if_neg hx, heq]

/-- C3 counterexample: the mutation middleware accepts the token
`"garbage"` even though the active-session set is empty, and the delete
behind it reaches the store and removes the item — refuting that a token
outside the active set never reaches the store operation. -/
theorem admin_gate_counterexample :
    verifyAdminToken (some "garbage") = true ∧
    "garbage" ∉ ([] : List String) ∧
    adminDelete [] (some "garbage") [itemA] itemA.id = (Status.ok, []) := by
  decide

/-- C3 amended: a mutation request (update or delete) is rejected with
Unauthorized exactly when the supplied admin token is missing or empty;
any non-empty token proceeds to the store operation regardless of the
active-session set, and a rejected request leaves the store unchanged. -/
theorem admin_gate_amended (active : List String) (token : Option String)
    (store : List NewsItem) (nid : String) (t b e : Option String) :
    ((adminUpdate active token store nid t b e).1 = Status.unauthorized ↔
      (token = none ∨ token = some "")) ∧
    ((adminDelete active token store nid).1 = Status.unauthorized ↔
      (token = none ∨ token = some "")) ∧
    ((token = none ∨ token = some "") →
      (adminUpdate active token store nid t b e).2.2 = store ∧
      (adminDelete active token store nid).2 = store) := by
  have hv : verifyAdminToken token = false ↔ (token = none ∨ token = some "") := by
    cases token with
    | none => simp [verifyAdminToken]
    | some s => simp [verifyAdminToken, bne_eq_false_iff_eq]
  by_cases h : verifyAdminToken token = true
  · have hne : ¬ (token = none ∨ token = some "") := by
      intro hc
      rw [hv.mpr hc] at h
      exact Bool.false_ne_true h
    refine ⟨?_, ?_, fun hc => absurd hc hne⟩
    · simp only [adminUpdate, if_pos h]
      exact iff_of_false (newsUpdate_fst_ne_unauthorized store nid t b e) hne
    · simp only [adminDelete, if_pos h]
      exact iff_of_false (newsDelete_fst_ne_unauthorized store nid) hne
  · have hfalse : verifyAdminToken token = false := by
      cases hb : verifyAdminToken token
      · rfl
      · exact absurd hb h
    have hcond := hv.mp hfalse
    refine ⟨?_, ?_, fun _ => ?_⟩
    · simp only [adminUpdate, if_neg h]
      exact iff_of_true trivial hcond
    · simp only [adminDelete, if_neg h]
      exact iff_of_true trivial hcond
    · constructor
      · simp only [adminUpdate, if_neg h]
      · simp only [adminDelete, if_neg h]

/-- C3 amended, instantiated at an empty token over a one-item store. -/
theorem admin_gate_amended_witness :
    ((adminUpdate [] (some "") [itemA] itemA.id none none none).1 =
        Status.unauthorized ↔
      ((some "" : Option String) = none ∨ (some "" : Option String) = some "")) ∧
    ((adminDelete [] (some "") [itemA] itemA.id).1 = Status.unauthorized ↔
      ((some "" : Option String) = none ∨ (some "" : Option String) = some "")) ∧
    (((some "" : Option String) = none ∨ (some "" : Option String) = some "") →
      (adminUpdate [] (some "") [itemA] itemA.id none none none).2.2 = [itemA] ∧
      (adminDelete [] (some "") [itemA] itemA.id).2 = [itemA]) :=
  admin_gate_amended [] (some "") [itemA] itemA.id none none none

/-- C2 amended, witnessed on the colliding pair `itemA`/`itemB`. -/
theorem upsert_collision_amended_witness :
    (itemB.id ∈ ([itemA] : List NewsItem).map NewsItem.id ∧
      ([itemA] : List NewsItem).length < 50) ∧
    ((dbUpsert itemB [itemA]).length = ([itemA] : List NewsItem).length ∧
      itemB ∈ dbUpsert itemB [itemA] ∧
      (∀ r ∈ dbUpsert itemB [itemA], r.id = itemB.id → r = itemB) ∧
      storeAdd itemB [itemA] = itemB :: [itemA] ∧
      2 ≤ ((storeAdd itemB [itemA]).map NewsItem.id).count itemB.id) :=
  ⟨⟨by decide, by decide⟩,
    upsert_collision_amended [itemA] [itemA] itemB (by decide) (by decide)
      (by decide)⟩

/-- Removing a present failing element strictly shrinks a filter. -/
theorem length_filter_lt {α : Type} (p : α → Bool) (l : List α) (a : α)
    (ha : a ∈ l) (hpa : p a = false) :
    (l.filter p).length < l.length := by
  induction l with
  | nil => cases ha
  | cons x xs ih =>
    rcases List.mem_cons.mp ha with rfl | hmem
    · rw [List.filter_cons, hpa]
      exact Nat.lt_succ_of_le (List.length_filter_le p xs)
    · rw [List.filter_cons]
      by_cases hx : p x
      · rw [if_pos hx, List.length_cons, List.length_cons]
        exact Nat.succ_lt_succ (ih hmem)
      · rw [if_neg hx, List.length_cons]
        exact Nat.lt_succ_of_lt (ih hmem)

/-- C6: an authorized update supplying only a title rewrites only that
item's title field; its body, emoji and all other fields, and every other
item of the store, are returned unchanged. -/
theorem update_title_only_frame (active : List String) (tok : String)
    (store : List NewsItem) (nid : String) (t : String)
    (htok : tok ≠ "") (h : nid ∈ store.map NewsItem.id) :
    ∃ pre old post,
      store = pre ++ old :: post ∧ old.id = nid ∧ (∀ x ∈ pre, x.id ≠ nid) ∧
      adminUpdate active (some tok) store nid (some t) none none =
        (Status.ok, some { old with title := jsOr (some t) old.title },
          pre ++ { old with title := jsOr (some t) old.title } :: post) := by
  have hv : verifyAdminToken (some tok) = true := by
    simp [verifyAdminToken, htok]
  obtain ⟨pre, old, post, hsplit, hold, hpre, heq⟩ :=
    newsUpdate_found store nid (some t) none none h
  refine ⟨pre, old, post, hsplit, hold, hpre, ?_⟩
  simp only [adminUpdate, if_pos hv, heq]
  rfl

/-- C6 witnessed: updating the only stored item with a fresh title. -/
theorem update_title_only_frame_witness :
    ("tok" ≠ "" ∧ itemA.id ∈ ([itemA] : List NewsItem).map NewsItem.id) ∧
    (∃ pre old post,
      ([itemA] : List NewsItem) = pre ++ old :: post ∧ old.id = itemA.id ∧
      (∀ x ∈ pre, x.id ≠ itemA.id) ∧
      adminUpdate [] (some "tok") [itemA] itemA.id (some "NewTitle") none none =
        (Status.ok, some { old with title := jsOr (some "NewTitle") old.title },
          pre ++ { old with title := jsOr (some "NewTitle") old.title } :: post)) :=
  ⟨⟨by decide, by decide⟩,
    update_title_only_frame [] "tok" [itemA] itemA.id "NewTitle" (by decide)
      (by decide)⟩

/-- C9: an authorized update supplying the empty string for title, body and
emoji keeps every field (empty is falsy, hence treated as absent) and still
answers success with the item; the store is returned unchanged. -/
theorem update_empty_fields_noop (active : List String) (tok : String)
    (store : List NewsItem) (nid : String)
    (htok : tok ≠ "") (h : nid ∈ store.map NewsItem.id) :
    ∃ old, old ∈ store ∧ old.id = nid ∧
      adminUpdate active (some tok) store nid (some "") (some "") (some "") =
        (Status.ok, some old, store) := by
  have hv : verifyAdminToken (some tok) = true := by
    simp [verifyAdminToken, htok]
  obtain ⟨pre, old, post, hsplit, hold, hpre, heq⟩ :=
    newsUpdate_found store nid (some "") (some "") (some "") h
  have happ : applyUpdate (some "") (some "") (some "") old = old := rfl
  refine ⟨old, ?_, hold, ?_⟩
  · rw [hsplit]
    exact List.mem_append_right pre (List.mem_cons_self old post)
  · simp only [adminUpdate, if_pos hv, heq, happ]
    rw [← hsplit]

/-- C9 witnessed on a one-item store. -/
theorem update_empty_fields_noop_witness :
    ("tok" ≠ "" ∧ itemA.id ∈ ([itemA] : List NewsItem).map NewsItem.id) ∧
    (∃ old, old ∈ ([itemA] : List NewsItem) ∧ old.id = itemA.id ∧
      adminUpdate [] (some "tok") [itemA] itemA.id
          (some "") (some "") (some "") =
        (Status.ok, some old, ([itemA] : List NewsItem))) :=
  ⟨⟨by decide, by decide⟩,
    update_empty_fields_noop [] "tok" [itemA] itemA.id (by decide) (by decide)⟩

/-- C7: an authorized update or delete of an absent id answers NotFound and
returns the store contents exactly as they were. -/
theorem mutate_absent_not_found (active : List String) (tok : String)
    (store : List NewsItem) (nid : String) (t b e : Option String)
    (htok : tok ≠ "") (h : ∀ x ∈ store, x.id ≠ nid) :
    adminUpdate active (some tok) store nid t b e =
      (Status.notFound, none, store) ∧
    adminDelete active (some tok) store nid = (Status.notFound, store) := by
  have hv : verifyAdminToken (some tok) = true := by
    simp [verifyAdminToken, htok]
  have hfilter : store.filter (fun item => item.id != nid) = store :=
    List.filter_eq_self.mpr (fun a ha => by simpa using h a ha)
  constructor
  · simp only [adminUpdate, if_pos hv]
    exact newsUpdate_absent store nid t b e h
  · simp only [adminDelete, if_pos hv]
    simp [newsDelete, hfilter]

/-- C7 witnessed: mutating an unknown id over a one-item store. -/
theorem mutate_absent_not_found_witness :
    ("tok" ≠ "" ∧ (∀ x ∈ ([itemA] : List NewsItem), x.id ≠ "missing")) ∧
    (adminUpdate [] (some "tok") [itemA] "missing" (some "T") none none =
      (Status.notFound, none, ([itemA] : List NewsItem)) ∧
    adminDelete [] (some "tok") [itemA] "missing" =
      (Status.notFound, ([itemA] : List NewsItem))) :=
  ⟨⟨by decide, by decide⟩,
    mutate_absent_not_found [] "tok" [itemA] "missing" (some "T") none none
      (by decide) (by decide)⟩

/-- C10: an authorized delete of a present id succeeds and removes every
stored item with that id, even when several items share it. -/
theorem delete_removes_all (active : List String) (tok : String)
    (store : List NewsItem) (nid : String)
    (htok : tok ≠ "") (h : nid ∈ store.map NewsItem.id) :
    (adminDelete active (some tok) store nid).1 = Status.ok ∧
    ∀ x ∈ (adminDelete active (some tok) store nid).2, x.id ≠ nid := by
  have hv : verifyAdminToken (some tok) = true := by
    simp [verifyAdminToken, htok]
  obtain ⟨r, hr, hrid⟩ := List.mem_map.mp h
  have hlt : (store.filter (fun item => item.id != nid)).length < store.length :=
    length_filter_lt _ store r hr (by simp [hrid])
  constructor
  · simp [adminDelete, if_pos hv, newsDelete, hlt]
  · intro x hx
    simp only [adminDelete, if_pos hv, newsDelete, hlt, if_pos] at hx
    have := (List.mem_filter.mp hx).2
    simpa using this

/-- C10 witnessed on a store holding two items with the same id. -/
theorem delete_removes_all_witness :
    ("tok" ≠ "" ∧ itemA.id ∈ ([itemA, itemB] : List NewsItem).map NewsItem.id) ∧
    ((adminDelete [] (some "tok") [itemA, itemB] itemA.id).1 = Status.ok ∧
      ∀ x ∈ (adminDelete [] (some "tok") [itemA, itemB] itemA.id).2,
        x.id ≠ itemA.id) :=
  ⟨⟨by decide, by decide⟩,
    delete_removes_all [] "tok" [itemA, itemB] itemA.id (by decide) (by decide)⟩

/-- C8: registering a non-empty token twice succeeds both times, leaves the
registry and the reported device count unchanged by the second call, and
preserves freedom from duplicates. -/
theorem register_twice_idempotent (tokens : List String) (t : String)
    (ht : t ≠ "") :
    (registerPushToken tokens (some t)).1 = Status.ok ∧
    (registerPushToken (registerPushToken tokens (some t)).2.1 (some t)).1 =
      Status.ok ∧
    (registerPushToken (registerPushToken tokens (some t)).2.1 (some t)).2.1 =
      (registerPushToken tokens (some t)).2.1 ∧
    (registerPushToken (registerPushToken tokens (some t)).2.1 (some t)).2.2 =
      (registerPushToken tokens (some t)).2.2 ∧
    (tokens.Nodup →
      (registerPushToken (registerPushToken tokens (some t)).2.1
        (some t)).2.1.Nodup) := by
  have h1 : registerPushToken tokens (some t) =
      (Status.ok, (if t ∈ tokens then tokens else tokens ++ [t]),
        (if t ∈ tokens then tokens else tokens ++ [t]).length) := by
    simp [registerPushToken, ht]
  have hmem1 : t ∈ (if t ∈ tokens then tokens else tokens ++ [t]) := by
    by_cases hmem : t ∈ tokens
    · rw [if_pos hmem]; exact hmem
    · rw [if_neg hmem]
      exact List.mem_append_right tokens (by simp)
  have h2 : registerPushToken (if t ∈ tokens then tokens else tokens ++ [t])
      (some t) =
      (Status.ok, (if t ∈ tokens then tokens else tokens ++ [t]),
        (if t ∈ tokens then tokens else tokens ++ [t]).length) := by
    simp [registerPushToken, ht, hmem1]
  rw [h1]
  refine ⟨rfl, ?_, ?_, ?_, ?_⟩
  · rw [h2]
  · rw [h2]
  · rw [h2]
  · intro hnd
    rw [h2]
    by_cases hmem : t ∈ tokens
    · rw [if_pos hmem]; exact hnd
    · rw [if_neg hmem]
      rw [List.nodup_append]
      exact ⟨hnd, List.nodup_singleton t,
        fun a ha hat => hmem (by rwa [List.mem_singleton.mp hat] at ha)⟩

/-- C8 witnessed on the scenario token: one device reported both times. -/
theorem register_twice_idempotent_witness :
    ("tok-A" ≠ "" ∧
      (registerPushToken [] (some "tok-A")).2.2 = 1 ∧
      (registerPushToken (registerPushToken [] (some "tok-A")).2.1
        (some "tok-A")).2.2 = 1) ∧
    ((registerPushToken [] (some "tok-A")).1 = Status.ok ∧
      (registerPushToken (registerPushToken [] (some "tok-A")).2.1
        (some "tok-A")).1 = Status.ok ∧
      (registerPushToken (registerPushToken [] (some "tok-A")).2.1
        (some "tok-A")).2.1 = (registerPushToken [] (some "tok-A")).2.1 ∧
      (registerPushToken (registerPushToken [] (some "tok-A")).2.1
        (some "tok-A")).2.2 = (registerPushToken [] (some "tok-A")).2.2 ∧
      (([] : List String).Nodup →
        (registerPushToken (registerPushToken [] (some "tok-A")).2.1
          (some "tok-A")).2.1.Nodup)) :=
  ⟨⟨by decide, by decide, by decide⟩,
    register_twice_idempotent [] "tok-A" (by decide)⟩

/-! ## Poll-loop lemmas -/

/-- Closed form of the `forEach` loop: the cursor ends at the id of the
last text-bearing update (or stays put), and the log extends by exactly the
text-bearing messages in arrival order. -/
theorem pollStep_foldl (batch : List TgUpdate) (cur : Nat)
    (log : List TgMessage) :
    batch.foldl pollStep (cur, log) =
      (((batch.filter (fun u => (textMessage u).isSome)).map
          TgUpdate.update_id).getLastD cur,
        log ++ batch.filterMap textMessage) := by
  induction batch generalizing cur log with
  | nil => simp
  | cons u rest ih =>
    cases hu : textMessage u with
    | some m =>
      have hsome : (textMessage u).isSome = true := by rw [hu]; rfl
      have hstep : pollStep (cur, log) u = (u.update_id, log ++ [m]) := by
        simp [pollStep, hu]
      rw [List.foldl_cons, hstep, ih,
        @List.filter_cons_of_pos TgUpdate (fun u => (textMessage u).isSome)
          u rest hsome,
        List.map_cons, List.getLastD_cons, List.filterMap_cons_some hu,
        List.append_assoc, List.singleton_append]
    | none =>
      have hnone : (textMessage u).isSome = false := by rw [hu]; rfl
      have hstep : pollStep (cur, log) u = (cur, log) := by
        simp [pollStep, hu]
      have hneg : ¬ ((fun u => (textMessage u).isSome) u = true) := by
        simp only [hnone]
        decide
      rw [List.foldl_cons, hstep, ih,
        @List.filter_cons_of_neg TgUpdate (fun u => (textMessage u).isSome)
          u rest hneg,
        List.filterMap_cons_none hu]

/-- C5 counterexample: in a batch whose last update carries no text, the
loop leaves the cursor at the id of the last processed update (1), not at
the highest update id seen in the batch (2). -/
theorem poll_cursor_counterexample :
    (pollBatch [⟨1, some ⟨10, some "hello", 5⟩⟩, ⟨2, none⟩] 0).1 = 1 ∧
    ((([⟨1, some ⟨10, some "hello", 5⟩⟩, ⟨2, none⟩] : List TgUpdate).map
      TgUpdate.update_id).foldl max 0) = 2 ∧
    (1 : Nat) ≠ 2 := by
  decide

/-- C5 amended: the pull path processes exactly the updates carrying a
non-empty text message, in arrival order, and afterwards the cursor equals
the update id of the last processed update — unchanged when none
qualifies. -/
theorem poll_batch_amended (batch : List TgUpdate) (cursor : Nat) :
    (pollBatch batch cursor).2 = batch.filterMap textMessage ∧
    (pollBatch batch cursor).1 =
      ((batch.filter (fun u => (textMessage u).isSome)).map
        TgUpdate.update_id).getLastD cursor := by
  unfold pollBatch
  rw [pollStep_foldl]
  simp

/-! ## Normalizer lemmas -/

/-- `splitNl` always returns at least one line. -/
theorem splitNl_ne_nil (cs : List Char) : splitNl cs ≠ [] := by
  cases cs with
  | nil => simp [splitNl]
  | cons c rest =>
    by_cases hc : c = '\n'
    · simp [splitNl, hc]
    · simp only [splitNl, if_neg hc]
      cases h : splitNl rest <;> simp

/-- The head of `dropWhile` fails the dropped predicate. -/
theorem head?_dropWhile_not_ws (l : List Char) (a : Char)
    (h : (l.dropWhile isWs).head? = some a) : isWs a = false := by
  induction l with
  | nil => simp [List.dropWhile] at h
  | cons c rest ih =>
    rw [List.dropWhile_cons] at h
    by_cases hc : isWs c
    · rw [if_pos hc] at h
      exact ih h
    · rw [if_neg hc] at h
      simp only [List.head?_cons, Option.some.injEq] at h
      simp only [← h]
      simpa using hc

/-- The trimmed text never ends in a whitespace character. -/
theorem jsTrim_getLast_not_ws (cs : List Char) (c : Char)
    (h : (jsTrim cs).getLast? = some c) : isWs c = false := by
  unfold jsTrim at h
  rw [List.getLast?_reverse] at h
  exact head?_dropWhile_not_ws _ _ h

/-- A split ending in an empty segment means the text was empty or ended in
a newline. -/
theorem splitNl_getLast_nil (cs : List Char)
    (h : (splitNl cs).getLast? = some []) :
    cs = [] ∨ cs.getLast? = some '\n' := by
  induction cs with
  | nil => exact Or.inl rfl
  | cons c rest ih =>
    by_cases hc : c = '\n'
    · subst hc
      obtain ⟨l, ls, hls⟩ : ∃ l ls, splitNl rest = l :: ls := by
        cases hsp : splitNl rest with
        | nil => exact absurd hsp (splitNl_ne_nil rest)
        | cons l ls => exact ⟨l, ls, rfl⟩
      rw [show splitNl ('\n' :: rest) = [] :: splitNl rest by
          simp [splitNl], hls, List.getLast?_cons_cons] at h
      rcases ih (by rw [hls]; exact h) with hrest | hrest
      · subst hrest
        exact Or.inr rfl
      · refine Or.inr ?_
        cases rest with
        | nil => simp at hrest
        | cons y ys => rw [List.getLast?_cons_cons]; exact hrest
    · rw [show splitNl (c :: rest) =
          (match splitNl rest with
            | [] => [[]]
            | l :: ls => (c :: l) :: ls) by simp [splitNl, hc]] at h
      cases hsp : splitNl rest with
      | nil => exact absurd hsp (splitNl_ne_nil rest)
      | cons l ls =>
        rw [hsp] at h
        cases ls with
        | nil =>
          simp only [List.getLast?_singleton, Option.some.injEq] at h
          cases h
        | cons y ys =>
          rw [List.getLast?_cons_cons] at h
          have hlast : (splitNl rest).getLast? = some [] := by
            rw [hsp, List.getLast?_cons_cons]
            exact h
          rcases ih hlast with hrest | hrest
          · subst hrest
            simp [splitNl] at hsp
          · refine Or.inr ?_
            cases rest with
            | nil => simp at hrest
            | cons z zs => rw [List.getLast?_cons_cons]; exact hrest

/-- `joinNl` is empty only for no lines or a single empty line. -/
theorem joinNl_eq_nil (ls : List (List Char)) (h : joinNl ls = []) :
    ls = [] ∨ ls = [[]] := by
  match ls with
  | [] => exact Or.inl rfl
  | [l] =>
    refine Or.inr ?_
    rw [show joinNl [l] = l from rfl] at h
    rw [h]
  | l :: l2 :: rest =>
    rw [show joinNl (l :: l2 :: rest) = l ++ '\n' :: joinNl (l2 :: rest)
        from rfl] at h
    rcases List.append_eq_nil.mp h with ⟨-, hcons⟩
    cases hcons

/-- On trimmed text, the remaining lines join to the empty string exactly
when there is a single line (a trailing newline would be required
otherwise, and `trim` has removed it). -/
theorem splitNl_tail_join_nil_iff (cs : List Char) :
    joinNl (splitNl (jsTrim cs)).tail = [] ↔
      (splitNl (jsTrim cs)).length = 1 := by
  obtain ⟨l, ls, hls⟩ : ∃ l ls, splitNl (jsTrim cs) = l :: ls := by
    cases hsp : splitNl (jsTrim cs) with
    | nil => exact absurd hsp (splitNl_ne_nil _)
    | cons l ls => exact ⟨l, ls, rfl⟩
  rw [hls]
  constructor
  · intro h
    simp only [List.tail_cons] at h
    rcases joinNl_eq_nil ls h with rfl | rfl
    · rfl
    · exfalso
      have hlast : (splitNl (jsTrim cs)).getLast? = some [] := by
        rw [hls, List.getLast?_cons_cons, List.getLast?_singleton]
      rcases splitNl_getLast_nil (jsTrim cs) hlast with htrim | htrim
      · rw [htrim] at hls
        simp [splitNl] at hls
      · exact absurd (jsTrim_getLast_not_ws cs '\n' htrim) (by decide)
  · intro h
    simp only [List.length_cons] at h
    have hls0 : ls = [] := List.length_eq_zero.mp (by omega)
    rw [hls0]
    rfl

/-- C4 counterexample: the text `"\nA\nB"` is non-empty and its first line
is empty, so the claim requires the default title; the code trims first and
titles the item `"A"`. -/
theorem normalize_counterexample :
    ("\nA\nB".data ≠ ([] : List Char)) ∧
    (splitNl "\nA\nB".data).headI = [] ∧
    normTitleChars "\nA\nB".data = "A".data ∧
    "A".data ≠ defaultTitleChars := by
  decide

/-- The amended title contract: first line of the trimmed text, or the
localized default when that line is empty. -/
def specTitleChars (text : List Char) : List Char :=
  if (splitNl (jsTrim text)).headI = [] then defaultTitleChars
  else (splitNl (jsTrim text)).headI

/-- The amended body contract: remaining lines of the trimmed text joined
by newline, falling back to the whole trimmed text when it has only one
line. -/
def specBodyChars (text : List Char) : List Char :=
  if (splitNl (jsTrim text)).length = 1 then jsTrim text
  else joinNl (splitNl (jsTrim text)).tail

/-- C4 amended: normalization first trims the text, then titles the item
with the first line of the trimmed text (default when empty) and bodies it
with the remaining lines joined (whole trimmed text when single-line); the
two scenario ingestions behave as the claim states. -/
theorem normalize_amended :
    (∀ text : List Char,
      normTitleChars text = specTitleChars text ∧
      normBodyChars text = specBodyChars text) ∧
    (normalizeMessage ⟨1, some "Title\nLine2\nLine3", 1700000000⟩ 1).title =
      "Title" ∧
    (normalizeMessage ⟨1, some "Title\nLine2\nLine3", 1700000000⟩ 1).body =
      "Line2\nLine3" ∧
    (normalizeMessage ⟨2, some "OnlyLine", 1700000000⟩ 1).title = "OnlyLine" ∧
    (normalizeMessage ⟨2, some "OnlyLine", 1700000000⟩ 1).body = "OnlyLine" := by
  refine ⟨fun text => ⟨rfl, ?_⟩, by decide, by decide, by decide, by decide⟩
  unfold normBodyChars specBodyChars jsOrChars
  by_cases h : joinNl (splitNl (jsTrim text)).tail = []
  · rw [if_pos h, if_pos ((splitNl_tail_join_nil_iff text).mp h)]
  · rw [if_neg h, if_neg (fun hl => h ((splitNl_tail_join_nil_iff text).mpr hl))]

end KriptoHaber
